import Mathlib

/-!
Verification development for the atm-cli output-archive engine
(`src/utils.rs`, `src/storage.rs`, `src/storage/*.rs`).

Modelling conventions:
* A `libatm::MIDINote` is external library data; per the specification (§3) a
  pitch serialises to its single MIDI value, so a note is modelled by that
  value as a `Nat` and `MIDINote::convert` is the identity.  A melody is a
  `List Nat` and `libatm::MIDIFile` carries its `sequence` (the constant
  format/track/division parameters play no role in the verified code).
* Rust `u32`/`i32`/`usize` quantities that the verified code keeps small and
  non-negative are modelled as `Nat`.
* `PartitionPathGenerator::gen_partition_length` computes
  `ceil(log_{k^D}(k^L / M))` with `f32` arithmetic.  Following the
  specification's numeric-semantics note ("`partition_length` uses
  real-valued logarithms and ceils the result ... a pure-integer
  implementation via repeated division is acceptable and preferred"), the
  computation is embedded with exact integer arithmetic: the least `n` with
  `(k^D)^n ≥ k^L / M`, i.e. with `k^L ≤ M * (k^D)^n`.
* Fallible Rust functions returning `Result` are embedded as `Except`;
  `&mut self` methods return the updated state.
-/

deriving instance DecidableEq for Except

/-! ### Error types (`storage.rs`, `storage/tar_archive.rs`) -/

/-- Error type of `PartitionPathGenerator` (`storage.rs`). -/
inductive PartitionPathGeneratorError where
  | MelodyLengthMismatch (expected observed : Nat)
  | PartitionDepthLongerThanMelody (partition_depth melody_length : Nat)
  | PartitionsLongerThanMelody (melody_length partition_depth partition_length : Nat)
deriving DecidableEq, Repr

/-- Error type of `PathGenerator` (`storage.rs`). -/
inductive PathGeneratorError where
  | PartitionPathGenerator (e : PartitionPathGeneratorError)
deriving DecidableEq, Repr

/-- Error type of `TarArchive` (`storage/tar_archive.rs`); an I/O error is
modelled by its message string. -/
inductive TarArchiveError where
  | IOError (msg : String)
  | PathGenerator (e : PathGeneratorError)
deriving DecidableEq, Repr

/-- Whether a storage backend is open or closed for writing
(`storage/tar_archive.rs`, `StorageState`). -/
inductive StorageState where
  | Open
  | Closed
deriving DecidableEq, Repr

/-! ### MIDI data (external `libatm` collaborator) -/

/-- Modelled from the spec: `libatm::MIDIFile` is an external collaborator
(§6.1); for the verified code only its pitch sequence matters, each pitch
being its 7-bit MIDI value. -/
structure MIDIFile where
  sequence : List Nat
deriving DecidableEq, Repr

/-- Concatenation of a list of strings with a separator between elements,
mirroring Rust's `Vec::<String>::join`. -/
def joinSep (sep : String) : List String → String
  | [] => ""
  | [s] => s
  | s :: r :: rest => s ++ sep ++ joinSep sep (r :: rest)

/-- Host path separator (`std::path::MAIN_SEPARATOR`); the claims and the
spec's concrete scenarios fix it to `/` (the Unix value). -/
def MAIN_SEPARATOR : String := "/"

/-- Modelled from the spec: `libatm::MIDIFile::gen_hash` (external, §3/§6.1)
is the concatenation of the decimal values of the melody's pitches. -/
def MIDIFile.gen_hash (m : MIDIFile) : String :=
  joinSep "" (m.sequence.map (fun n => Nat.repr n))

/-! ### Enumerator (`utils.rs`, `gen_sequences`) -/

/-- Mathematical `length`-fold cartesian product of `notes` with itself, with
the first coordinate varying slowest (the order in which
`itertools::multi_cartesian_product` yields tuples). -/
def seq_product (notes : List Nat) : Nat → List (List Nat)
  | 0 => [[]]
  | n + 1 => notes.flatMap (fun x => (seq_product notes n).map (fun s => x :: s))

/-- Embedding of `gen_sequences` (`utils.rs`): the multi cartesian product of
`length` copies of `notes`.  For `length = 0` itertools'
`multi_cartesian_product` yields an empty iterator (not one empty tuple), so
that case is mapped to `[]`; the claims only concern `length ≥ 1`. -/
def gen_sequences (notes : List Nat) (length : Nat) : List (List Nat) :=
  if length = 0 then [] else seq_product notes length

/-! ### PartitionPathGenerator (`storage.rs`) -/

/-- Path generator for partitioned output schemes (`storage.rs`). -/
structure PartitionPathGenerator where
  melody_length : Nat
  partition_depth : Nat
  partition_length : Nat
deriving DecidableEq, Repr

/-- Bounded linear search for the least `n ≥ start` (within `fuel` steps) such
that `num_melodies ≤ max_files * base ^ n`; returns `start + fuel` on fuel
exhaustion.  This is the integer form of `ceil(log_base(num_melodies /
max_files))` used by `gen_partition_length` (see the module comment). -/
def leastPartitionLength (base max_files num_melodies : Nat) : Nat → Nat → Nat
  | 0, start => start
  | fuel + 1, start =>
    if num_melodies ≤ max_files * base ^ start then start
    else leastPartitionLength base max_files num_melodies fuel (start + 1)

/-- Embedding of `PartitionPathGenerator::gen_partition_length` (`storage.rs`
lines 120-142).  The `f32` expression
`(num_melodies / max_files).log(num_notes.powi(partition_depth)).ceil()` is
embedded as the least `n` with `num_melodies ≤ max_files * (num_notes ^
partition_depth) ^ n` (exact-arithmetic semantics sanctioned by the spec's
numeric-semantics note); the fuel `num_melodies + 1` always suffices in the
reachable case `num_notes ≥ 2`, `partition_depth ≥ 1`, `max_files ≥ 1`. -/
def PartitionPathGenerator.gen_partition_length
    (num_notes num_melodies melody_length max_files partition_depth : Nat) :
    Except PartitionPathGeneratorError Nat :=
  let partition_length :=
    leastPartitionLength (num_notes ^ partition_depth) max_files num_melodies
      (num_melodies + 1) 0
  if melody_length < partition_depth * partition_length then
    .error (.PartitionsLongerThanMelody melody_length partition_depth partition_length)
  else
    .ok partition_length

/-- Embedding of `PartitionPathGenerator::new` (`storage.rs` lines 145-183). -/
def PartitionPathGenerator.new
    (num_notes melody_length max_files partition_depth : Nat) :
    Except PartitionPathGeneratorError PartitionPathGenerator :=
  if partition_depth > melody_length then
    .error (.PartitionDepthLongerThanMelody partition_depth melody_length)
  else
    let num_melodies := num_notes ^ melody_length
    if num_notes = 1 ∨ num_melodies ≤ max_files then
      .ok ⟨melody_length, 1, 0⟩
    else
      match PartitionPathGenerator.gen_partition_length
          num_notes num_melodies melody_length max_files partition_depth with
      | .error e => .error e
      | .ok calc_partition_length =>
        .ok ⟨melody_length, partition_depth, calc_partition_length⟩

/-- The `p`-th sliding window of the melody:
`&mfile.sequence[(len*p)..(len*(p+1))]` (`storage.rs` line 209-211).  The
slice is embedded with total `drop`/`take`; construction guarantees
`partition_depth * partition_length ≤ melody_length` so the slice is in
bounds wherever the source evaluates it. -/
def PartitionPathGenerator.window (g : PartitionPathGenerator) (m : List Nat) (p : Nat) :
    List Nat :=
  (m.drop (g.partition_length * p)).take g.partition_length

/-- Rendering of one window as a string: each note is converted to its integer
MIDI value and rendered in decimal
(`p.iter().map(|n| n.convert().to_string()).collect::<Vec<String>>().join("")`,
`storage.rs` line 213). -/
def renderWindow (w : List Nat) : String :=
  joinSep "" (w.map (fun n => Nat.repr n))

/-- Embedding of `PartitionPathGenerator::gen_basename_for_file` (`storage.rs`
lines 186-217). -/
def PartitionPathGenerator.gen_basename_for_file
    (g : PartitionPathGenerator) (mfile : MIDIFile) :
    Except PathGeneratorError String :=
  let melody_length := mfile.sequence.length
  if melody_length ≠ g.melody_length then
    .error (.PartitionPathGenerator (.MelodyLengthMismatch g.melody_length melody_length))
  else
    match g.partition_depth with
    | 0 => .ok ""
    | _ + 1 =>
      .ok (joinSep MAIN_SEPARATOR
        (((List.range g.partition_depth).map (fun p => g.window mfile.sequence p)).map
          (fun w => renderWindow w)))

/-- Embedding of `PathGenerator::gen_path_for_file` for
`PartitionPathGenerator` (`storage.rs` lines 220-234):
`Path::new(&basename).join(&filename)`, which is `filename` when the basename
is empty and `basename ++ separator ++ filename` otherwise. -/
def PartitionPathGenerator.gen_path_for_file
    (g : PartitionPathGenerator) (mfile : MIDIFile) :
    Except PathGeneratorError String := do
  let basename ← g.gen_basename_for_file mfile
  let filename := mfile.gen_hash ++ ".mid"
  if basename = "" then
    pure filename
  else
    pure (basename ++ MAIN_SEPARATOR ++ filename)

/-- Embedding of `MIDIHashPathGenerator::gen_path_for_file` (`storage.rs`
lines 79-83). -/
def MIDIHashPathGenerator.gen_path_for_file (mfile : MIDIFile) : String :=
  mfile.gen_hash ++ ".mid"

example : PartitionPathGenerator.new 8 12 4096 2 = .ok ⟨12, 2, 4⟩ := by decide
example : PartitionPathGenerator.new 2 2 1 1 = .ok ⟨2, 1, 2⟩ := by decide
example : PartitionPathGenerator.new 2 2 4096 1 = .ok ⟨2, 1, 0⟩ := by decide
example : seq_product [1, 11] 2 = [[1, 1], [1, 11], [11, 1], [11, 11]] := by decide

/-! ### TarArchive (`storage/tar_archive.rs`)

The shared tar-writing primitive, instantiated (as inside `BatchTarFile`) at
the `MIDIHashPathGenerator`; an archive is modelled by its state and the list
of entries appended so far.  Entry payload bytes (MIDI serialisation,
external `libatm`) are not tracked here; the byte level of the batched
backend's gzip/BufWriter stack is modelled separately below. -/

/-- One tar entry header as written by the backends: its path and the mode
set on the old-style header. -/
structure TarEntry where
  path : String
  mode : Nat
deriving DecidableEq, Repr

/-- Model of `TarArchive<W, MIDIHashPathGenerator>`: its `StorageState` and
the entries appended so far. -/
structure TarArchiveM where
  state : StorageState
  entries : List TarEntry
deriving DecidableEq, Repr

/-- Embedding of `TarArchive::new` (`storage/tar_archive.rs` lines 59-65). -/
def TarArchiveM.new : TarArchiveM :=
  ⟨StorageState.Open, []⟩

/-- Embedding of `TarArchive::append_file` (`storage/tar_archive.rs` lines
85-112): refuse when closed, otherwise append an entry whose path comes from
the path generator and whose header mode is the supplied value, or the
literal `644` (`header.set_mode(644)`, line 104) by default. -/
def TarArchiveM.append_file (a : TarArchiveM) (mfile : MIDIFile) (mode : Option Nat) :
    Except TarArchiveError TarArchiveM :=
  if a.state = StorageState.Closed then
    .error (.IOError "Archive is closed for writing, cannot append file")
  else
    let path := MIDIHashPathGenerator.gen_path_for_file mfile
    let entry_mode := match mode with
      | some m => m
      | none => 644
    .ok { a with entries := a.entries ++ [⟨path, entry_mode⟩] }

/-- Embedding of `TarArchive::finish` (`storage/tar_archive.rs` lines
114-124): transition Open → Closed (writing the tar footer), no-op when
already closed. -/
def TarArchiveM.finish (a : TarArchiveM) : Except TarArchiveError TarArchiveM :=
  match a.state with
  | .Open => .ok { a with state := StorageState.Closed }
  | .Closed => .ok a

/-! ### Filesystem model for the constructors

The constructors call `std::fs::File::open`, which opens an existing file
read-only: it fails with a not-found I/O error when the path does not exist
and never creates or modifies anything.  The filesystem is modelled as the
list of existing paths; `File_open` is its only operation used by the
constructors (none of them calls a creating operation). -/

/-- Model of `std::fs::File::open`: succeeds exactly on existing paths and
leaves the filesystem untouched. -/
def File_open (fs : List String) (path : String) : Except TarArchiveError Unit :=
  if path ∈ fs then .ok () else .error (.IOError "No such file or directory")

/-! ### TarFile (`storage/tar_file.rs`) and TarGzFile (`storage/tar_gz_file.rs`) -/

/-- Model of `TarFile`: a `TarArchive` over a buffered file sink. -/
structure TarFile where
  archive : TarArchiveM
deriving DecidableEq, Repr

/-- Embedding of `TarFile::new` (`storage/tar_file.rs` lines 30-39):
`std::fs::File::open(target_path)?`, then wrap in a fresh archive. -/
def TarFile.new (fs : List String) (target_path : String) :
    Except TarArchiveError TarFile := do
  let _ ← File_open fs target_path
  .ok ⟨TarArchiveM.new⟩

/-- Model of `TarGzFile`: a `TarArchive` over a gzip encoder over a buffered
file sink; the resolved compression level is recorded. -/
structure TarGzFile where
  archive : TarArchiveM
  compression_level : Nat
deriving DecidableEq, Repr

/-- Embedding of `TarGzFile::new` (`storage/tar_gz_file.rs` lines 34-57):
`std::fs::File::open(target_path)?`, then layer the gzip encoder (default
compression level 6) and a fresh archive. -/
def TarGzFile.new (fs : List String) (target_path : String)
    (compression_level : Option Nat) : Except TarArchiveError TarGzFile := do
  let _ ← File_open fs target_path
  .ok ⟨TarArchiveM.new, compression_level.getD 6⟩

/-! ### BatchTarFile (`storage/batch_tar_file.rs`) -/

/-- Model of `BatchTarFile` (`storage/batch_tar_file.rs` lines 41-62).  The
outer `tar::Builder` is modelled by the list of entries appended to it plus
whether its end-of-archive footer has been written. -/
structure BatchTarFile where
  outer_entries : List TarEntry
  outer_finished : Bool
  batch_archive : TarArchiveM
  batch_compression : Nat
  batch_count : Nat
  batch_size : Nat
  batch_mode : Option Nat
  batch_number : Nat
  partition : String
  path_generator : PartitionPathGenerator
  state : StorageState
deriving DecidableEq, Repr

/-- Embedding of `BatchTarFile::new` (`storage/batch_tar_file.rs` lines
77-130): validate the batch mode (integer `≤ 777`), open the target file,
build the partition path generator, resolve the compression level (default
6). -/
def BatchTarFile.new (fs : List String) (target_path : String)
    (batch_size num_notes melody_length max_files partition_depth : Nat)
    (batch_compression : Option Nat) (batch_mode : Option Nat) :
    Except TarArchiveError BatchTarFile := do
  match batch_mode with
  | some mode =>
    if mode > 777 then
      throw (.IOError ("Invalid file mode " ++ Nat.repr mode))
    else
      pure ()
  | none => pure ()
  let _ ← File_open fs target_path
  match PartitionPathGenerator.new num_notes melody_length max_files partition_depth with
  | .error e => .error (.PathGenerator (.PartitionPathGenerator e))
  | .ok path_generator =>
    .ok {
      outer_entries := []
      outer_finished := false
      batch_archive := TarArchiveM.new
      batch_compression := batch_compression.getD 6
      batch_count := 0
      batch_size := batch_size
      batch_mode := batch_mode
      batch_number := 0
      partition := ""
      path_generator := path_generator
      state := StorageState.Open }

/-- Embedding of `BatchTarFile::flush_batch` (`storage/batch_tar_file.rs`
lines 133-167).  If the batch archive is open: finish it, finish the gzip
stream, and append one outer entry with path
`format!("{partition}{separator}batch{batch_number}.tar.gz")` and mode
`batch_mode` or the literal `644` (line 159).  The payload bytes the source
reads out of the `BufWriter` are modelled separately (`BufWriterM`). -/
def BatchTarFile.flush_batch (b : BatchTarFile) : Except TarArchiveError BatchTarFile := do
  if b.batch_archive.state = StorageState.Open then
    let batch_archive ← b.batch_archive.finish
    let path := b.partition ++ MAIN_SEPARATOR ++ "batch" ++ Nat.repr b.batch_number ++ ".tar.gz"
    let entry_mode := match b.batch_mode with
      | some m => m
      | none => 644
    .ok { b with
      batch_archive := batch_archive
      outer_entries := b.outer_entries ++ [⟨path, entry_mode⟩] }
  else
    .ok b

/-- Embedding of `BatchTarFile::flush_and_init_batch`
(`storage/batch_tar_file.rs` lines 171-188). -/
def BatchTarFile.flush_and_init_batch (b : BatchTarFile) (is_partition_boundary : Bool) :
    Except TarArchiveError BatchTarFile := do
  let b ← b.flush_batch
  .ok { b with
    batch_archive := TarArchiveM.new
    batch_count := 0
    batch_number := if is_partition_boundary then 0 else b.batch_number + 1 }

/-- Embedding of `BatchTarFile::append_file` (`storage/batch_tar_file.rs`
lines 194-223). -/
def BatchTarFile.append_file (b : BatchTarFile) (mfile : MIDIFile) (mode : Option Nat) :
    Except TarArchiveError BatchTarFile := do
  if b.state = StorageState.Closed then
    .error (.IOError "Archive is closed for writing, cannot append file")
  else
    let partition ← (b.path_generator.gen_basename_for_file mfile).mapError
      TarArchiveError.PathGenerator
    let b ← do
      if b.partition ≠ partition then
        let b ← b.flush_and_init_batch true
        pure { b with partition := partition }
      else if b.batch_count = b.batch_size then
        b.flush_and_init_batch false
      else
        pure b
    let batch_archive ← b.batch_archive.append_file mfile mode
    .ok { b with batch_archive := batch_archive, batch_count := b.batch_count + 1 }

/-- Embedding of `StorageBackend::append_melody` (`storage.rs` lines 33-37)
for `BatchTarFile`: build the MIDI file from the melody, then append. -/
def BatchTarFile.append_melody (b : BatchTarFile) (melody : List Nat) (mode : Option Nat) :
    Except TarArchiveError BatchTarFile :=
  b.append_file ⟨melody⟩ mode

/-- Embedding of `BatchTarFile::finish` (`storage/batch_tar_file.rs` lines
225-237): when `state` is Open, flush the pending batch and write the outer
footer (`self.archive.finish()`); the source does not assign
`self.state = Closed` anywhere, and this model faithfully omits it too. -/
def BatchTarFile.finish (b : BatchTarFile) : Except TarArchiveError BatchTarFile :=
  match b.state with
  | .Open => do
    let b ← b.flush_batch
    .ok { b with outer_finished := true }
  | .Closed => .ok b

/-! ### Byte level of `flush_batch`: the gzip encoder's `BufWriter`

The batch sink is `GzEncoder<BufWriter<Vec<u8>>>`
(`gen_batch_archive`, `storage/batch_tar_file.rs` lines 66-74).  `flush_batch`
calls `encoder.try_finish()`, then reads the `Vec<u8>` inside the `BufWriter`
(`encoder.get_mut().get_mut()`) as the outer-entry payload, without flushing
the `BufWriter`.  `BufWriterM` models `std::io::BufWriter` semantics: a
`write` whose bytes do not fit the internal buffer first flushes it, and a
write at least as large as the capacity bypasses the buffer; otherwise bytes
accumulate in the internal buffer, not in the inner `Vec`.  The gzip encoder
is abstracted as the ordered list of compressed chunks it writes to the
`BufWriter` over the batch's lifetime (appends plus `try_finish`). -/

/-- Model of `std::io::BufWriter`: capacity, internal buffer, inner writer
(`Vec<u8>`), bytes as `Nat`s. -/
structure BufWriterM where
  capacity : Nat
  buf : List Nat
  inner : List Nat
deriving DecidableEq, Repr

/-- Default `BufWriter` capacity (`DEFAULT_BUF_SIZE`, 8 KiB), the capacity of
`BufWriter::new`. -/
def DEFAULT_BUF_SIZE : Nat := 8192

/-- Model of `BufWriter::new(Vec::with_capacity(512))`: default capacity,
empty buffer, empty inner vector. -/
def BufWriterM.new : BufWriterM :=
  ⟨DEFAULT_BUF_SIZE, [], []⟩

/-- Moving the internal buffer into the inner writer (`BufWriter::flush_buf`). -/
def BufWriterM.flush_buf (w : BufWriterM) : BufWriterM :=
  { w with inner := w.inner ++ w.buf, buf := [] }

/-- Model of `BufWriter::write`: flush first when the incoming bytes do not
fit next to the buffered ones; then write directly to the inner writer when
the chunk is at least the capacity, else buffer it. -/
def BufWriterM.write (w : BufWriterM) (b : List Nat) : BufWriterM :=
  let w := if w.capacity < w.buf.length + b.length then w.flush_buf else w
  if w.capacity ≤ b.length then
    { w with inner := w.inner ++ b }
  else
    { w with buf := w.buf ++ b }

/-- The compressed stream, as the encoder hands it to the `BufWriter`: the
chunks are written in order. -/
def BufWriterM.writeChunks (w : BufWriterM) (cs : List (List Nat)) : BufWriterM :=
  cs.foldl BufWriterM.write w

/-! ### Counting melodies that share a partition basename (claim C1) -/

/-- Number of melodies of the generator's length over the note list `notes`
whose partition basename equals that of `m` (`seq_product notes
g.melody_length` enumerates each such melody exactly once, see
`seq_product_nodup` and `mem_seq_product`). -/
def countSharingBasename (notes : List Nat) (g : PartitionPathGenerator) (m : List Nat) : Nat :=
  ((seq_product notes g.melody_length).filter (fun m' =>
    g.gen_basename_for_file ⟨m'⟩ = g.gen_basename_for_file ⟨m⟩)).length

/-! ### Concrete runs used by several claims -/

/-- Run for claims C9/C5: a `BatchTarFile` over two notes, melody length 2,
`max_files` 4096 (so `2^2 ≤ 4096` forces the flat scheme: partition depth 1,
partition length 0), finished immediately after construction. -/
def finishOnlyRun : Except TarArchiveError BatchTarFile := do
  let b ← BatchTarFile.new ["out.tar"] "out.tar" 25 2 2 4096 1 none none
  b.finish

/-- Run for claim C4: same parameters as `finishOnlyRun` (every melody's
partition basename is the empty string), with one melody appended before
`finish`. -/
def flatAppendRun : Except TarArchiveError BatchTarFile := do
  let b ← BatchTarFile.new ["out.tar"] "out.tar" 25 2 2 4096 1 none none
  let b ← b.append_melody [60, 60] none
  b.finish

/-- Run for claim C2: a partitioned `BatchTarFile` (two notes, melody length
2, `max_files` 1, depth 1, hence partition length 2); append one melody,
`finish`, record the state, then append a melody of a different partition.
The run only reaches `pure` if the second append returns `Ok`. -/
def appendAfterFinishRun : Except TarArchiveError (StorageState × BatchTarFile) := do
  let b ← BatchTarFile.new ["out.tar"] "out.tar" 25 2 2 1 1 none none
  let b ← b.append_melody [60, 60] none
  let b ← b.finish
  let stateAfterFinish := b.state
  let b ← b.append_melody [62, 62] none
  pure (stateAfterFinish, b)

/-- Claim C2: after `BatchTarFile::finish()` returns `Ok`, the backend is in
the `Closed` state and every subsequent `append_file` returns an error.  The
code violates this: `finish` (unlike `TarArchive::finish` and the legacy
`BatchedMIDIArchive::finish`) never assigns `state = Closed`, so after a
successful `finish` the state is still `Open`, and an append whose melody
falls in a new partition (or that hits a batch boundary) recreates a fresh
inner archive and returns `Ok`.  This theorem evaluates the embedded code on
such a run: `finish` succeeded, left the state `Open`, and the subsequent
append succeeded, having appended the file to a fresh batch. -/
theorem C2_append_after_finish_succeeds :
    appendAfterFinishRun.map (fun p =>
        (p.1, p.2.state, p.2.batch_count, p.2.outer_entries.map TarEntry.path)) =
      .ok (StorageState.Open, StorageState.Open, 1, ["/batch0.tar.gz", "6060/batch0.tar.gz"]) := by
  decide

/-- Compressed chunks of one small batch, as the gzip encoder writes them to
the `BufWriter` (total well under the 8192-byte capacity, as for the ≈515
byte batches the backend is designed around). -/
def smallGzipChunks : List (List Nat) :=
  [[31, 139, 8, 0], [99, 96, 24, 229], [96, 20, 140], [2, 0]]

/-- Claim C3: the payload bytes `flush_batch` writes are exactly the complete
compressed output of the gzip encoder, with no compressed bytes left in any
intermediate buffer.  The code violates this: `flush_batch` reads the
`Vec<u8>` inside the `BufWriter` (`encoder.get_mut().get_mut()`) without
flushing the `BufWriter`, and `GzEncoder::try_finish` does not flush the
underlying writer either; whenever the whole compressed stream is smaller
than the 8192-byte `BufWriter` capacity, every compressed byte is still
sitting in the `BufWriter`'s internal buffer and the inner `Vec` — the
payload the code writes — is empty. -/
theorem C3_payload_misses_buffered_bytes :
    (BufWriterM.new.writeChunks smallGzipChunks).inner = [] ∧
    (BufWriterM.new.writeChunks smallGzipChunks).buf = smallGzipChunks.flatten ∧
    smallGzipChunks.flatten ≠ [] := by
  decide

/-- Claim C5: when no mode is supplied, every tar entry header written by the
backends carries mode octal `0o644` = decimal 420.  The code violates this:
both `TarArchive::append_file` (`tar_archive.rs` line 104) and
`BatchTarFile::flush_batch` (`batch_tar_file.rs` line 159) call
`header.set_mode(644)` with the decimal literal 644 (= `0o1204`), not
`0o644` (= 420) — even though the adjacent comment says "644 (rw-r-r)". -/
theorem C5_default_mode_is_decimal_644 :
    (TarArchiveM.new.append_file ⟨[60]⟩ none).map (fun a => a.entries.map TarEntry.mode) =
      .ok [644] ∧
    finishOnlyRun.map (fun b => b.outer_entries.map TarEntry.mode) = .ok [644] ∧
    (644 : Nat) ≠ 420 := by
  decide

/-- Claim C7: for k = 8, L = 12, M = 4096, D = 2 the computed
`partition_length` is 4, and the partitioned path for the melody with hash
"606060606467717262616464" is
"60606060/64677172/606060606467717262616464.mid". -/
theorem C7_concrete_partition_and_path :
    PartitionPathGenerator.new 8 12 4096 2 = .ok ⟨12, 2, 4⟩ ∧
    (PartitionPathGenerator.mk 12 2 4).gen_path_for_file
        ⟨[60, 60, 60, 60, 64, 67, 71, 72, 62, 61, 64, 64]⟩ =
      .ok "60606060/64677172/606060606467717262616464.mid" := by
  decide

/-- Claim C9: `finish()` flushes the pending batch only when it is non-empty,
so construction followed immediately by `finish()` yields zero outer entries.
The code violates this: `flush_batch` tests `batch_archive.state == Open`,
not emptiness (unlike the legacy `BatchedMIDIArchive::finish`, which checks
`gen_batch_size() > 0`), so the fresh empty batch is flushed and the outer
archive receives one entry, `"/batch0.tar.gz"`. -/
theorem C9_finish_flushes_empty_batch :
    finishOnlyRun.map (fun b => b.outer_entries) = .ok [⟨"/batch0.tar.gz", 644⟩] ∧
    finishOnlyRun.map (fun b => b.outer_entries.length) = .ok 1 ∧ (1 : Nat) ≠ 0 := by
  decide

/-- Claim C1, counterexample: with the valid parameters k = 2, L = 2, M = 1,
D = 1, construction succeeds with partition length 2, and over the 2-note
set {1, 11} the melody [1, 11] has basename "111", which is also the
basename of [11, 1] (the unpadded decimal window rendering is not
injective), so 2 > M = 1 melodies share the basename. -/
theorem C1_counterexample :
    PartitionPathGenerator.new 2 2 1 1 = .ok ⟨2, 1, 2⟩ ∧
    countSharingBasename [1, 11] ⟨2, 1, 2⟩ [1, 11] = 2 ∧
    ¬ (countSharingBasename [1, 11] ⟨2, 1, 2⟩ [1, 11] ≤ 1) := by
  decide

/-- Claim C4, counterexample: in a run whose partition string is empty (flat
scheme, `partition_length` 0), the single outer entry written has path
"/batch0.tar.gz" — with a leading separator — not "batch0.tar.gz": the
source formats `"{partition}{separator}batch{batch_number}.tar.gz"`
unconditionally. -/
theorem C4_counterexample :
    flatAppendRun.map (fun b => (b.partition, b.outer_entries.map TarEntry.path)) =
      .ok ("", ["/batch0.tar.gz"]) ∧
    "/batch0.tar.gz" ≠ "batch0.tar.gz" := by
  decide

/-- Claim C8, counterexample: the windows are rendered with unpadded decimal
values (`n.convert().to_string()`), so for a generator with partition length
2 the accepted melody [108, 64] (both legal 7-bit MIDI values) yields the
window string "10864" of 5 ≠ 2·2 characters. -/
theorem C8_counterexample :
    PartitionPathGenerator.new 2 2 1 1 = .ok ⟨2, 1, 2⟩ ∧
    (PartitionPathGenerator.mk 2 1 2).gen_basename_for_file ⟨[108, 64]⟩ = .ok "10864" ∧
    ("10864".length = 5 ∧ 5 ≠ 2 * 2) := by
  decide

/-! ### Properties of the enumerator (claim C6) -/

theorem seq_product_length (notes : List Nat) : ∀ n, (seq_product notes n).length = notes.length ^ n := by
  intro n
  induction n with
  | zero => rfl
  | succ n ih =>
    simp only [seq_product, List.length_flatMap, Function.comp_def, List.length_map, ih]
    rw [List.map_const', List.sum_replicate, smul_eq_mul, pow_succ, mul_comm]

theorem mem_seq_product (notes : List Nat) :
    ∀ (n : Nat) (m : List Nat), m ∈ seq_product notes n ↔ m.length = n ∧ ∀ x ∈ m, x ∈ notes := by
  intro n
  induction n with
  | zero =>
    intro m
    simp only [seq_product, List.mem_singleton, List.length_eq_zero]
    constructor
    · rintro rfl
      exact ⟨rfl, by simp⟩
    · rintro ⟨rfl, -⟩
      rfl
  | succ n ih =>
    intro m
    constructor
    · intro hm
      rw [seq_product, List.mem_flatMap] at hm
      obtain ⟨a, ha, hm⟩ := hm
      rw [List.mem_map] at hm
      obtain ⟨s, hs, rfl⟩ := hm
      obtain ⟨hlen, hmem⟩ := (ih s).1 hs
      refine ⟨by simp [hlen], ?_⟩
      intro x hx
      rcases List.mem_cons.1 hx with h | h
      · exact h ▸ ha
      · exact hmem x h
    · rintro ⟨hlen, hmem⟩
      cases m with
      | nil => simp at hlen
      | cons a s =>
        rw [seq_product, List.mem_flatMap]
        refine ⟨a, hmem a (by simp), ?_⟩
        rw [List.mem_map]
        refine ⟨s, (ih s).2 ⟨by simpa using hlen, ?_⟩, rfl⟩
        intro x hx
        exact hmem x (List.mem_cons_of_mem _ hx)

theorem pairwise_flatMap_of {α β : Type} {S : α → α → Prop} {R : β → β → Prop} {f : α → List β} :
    ∀ {l : List α}, List.Pairwise S l → (∀ a ∈ l, List.Pairwise R (f a)) →
      (∀ a b, S a b → ∀ x ∈ f a, ∀ y ∈ f b, R x y) → List.Pairwise R (l.flatMap f) := by
  intro l
  induction l with
  | nil =>
    intros
    simp
  | cons a l ih =>
    intro hS hblocks hcross
    rw [List.flatMap_cons, List.pairwise_append]
    rw [List.pairwise_cons] at hS
    refine ⟨hblocks a (by simp), ih hS.2 (fun b hb => hblocks b (List.mem_cons_of_mem _ hb)) hcross, ?_⟩
    intro x hx y hy
    rw [List.mem_flatMap] at hy
    obtain ⟨b, hb, hyb⟩ := hy
    exact hcross a b (hS.1 b hb) x hx y hyb

theorem seq_product_pairwise_lex {r : Nat → Nat → Prop} (notes : List Nat)
    (hr : List.Pairwise r notes) :
    ∀ n, List.Pairwise (List.Lex r) (seq_product notes n) := by
  intro n
  induction n with
  | zero => simp [seq_product]
  | succ n ih =>
    rw [seq_product]
    apply pairwise_flatMap_of hr
    · intro a _
      exact List.pairwise_map.2 (ih.imp (fun h => List.Lex.cons h))
    · intro a b hab x hx y hy
      rw [List.mem_map] at hx hy
      obtain ⟨s, -, rfl⟩ := hx
      obtain ⟨t, -, rfl⟩ := hy
      exact List.Lex.rel hab

theorem lex_self_false {r : Nat → Nat → Prop} (hirr : ∀ a, ¬ r a a) :
    ∀ s : List Nat, ¬ List.Lex r s s := by
  intro s
  induction s with
  | nil =>
    intro h
    cases h
  | cons a s ih =>
    intro h
    cases h with
    | cons h => exact ih h
    | rel h => exact hirr a h

theorem pairwise_indexOf_lt (notes : List Nat) (hnd : notes.Nodup) :
    List.Pairwise (fun a b => notes.indexOf a < notes.indexOf b) notes := by
  rw [List.pairwise_iff_getElem]
  intro i j hi hj hij
  rw [List.indexOf_getElem hnd i hi, List.indexOf_getElem hnd j hj]
  exact hij

theorem seq_product_nodup (notes : List Nat) (hnd : notes.Nodup) (n : Nat) :
    (seq_product notes n).Nodup := by
  have hpw := seq_product_pairwise_lex notes (pairwise_indexOf_lt notes hnd) n
  refine hpw.imp ?_
  intro s t hlex heq
  subst heq
  exact lex_self_false (r := fun a b => notes.indexOf a < notes.indexOf b)
    (fun a => lt_irrefl _) s hlex

/-- Claim C6: for every non-empty list of pairwise-distinct notes and every
length L ≥ 1, `gen_sequences` yields exactly `k^L` melodies, pairwise
distinct, in lexicographic order under the index order of the input note
list (and, being a total function, never fails); moreover it yields exactly
the length-L tuples over the note list. -/
theorem C6_enumerator (notes : List Nat) (L : Nat) (hnd : notes.Nodup) (hL : 1 ≤ L) :
    (gen_sequences notes L).length = notes.length ^ L ∧
    (gen_sequences notes L).Nodup ∧
    List.Pairwise (List.Lex (fun a b => notes.indexOf a < notes.indexOf b))
      (gen_sequences notes L) ∧
    ∀ m : List Nat, m ∈ gen_sequences notes L ↔ m.length = L ∧ ∀ x ∈ m, x ∈ notes := by
  have hg : gen_sequences notes L = seq_product notes L := by
    have : L ≠ 0 := by omega
    simp [gen_sequences, this]
  rw [hg]
  exact ⟨seq_product_length notes L, seq_product_nodup notes hnd L,
    seq_product_pairwise_lex notes (pairwise_indexOf_lt notes hnd) L,
    mem_seq_product notes L⟩

/-- Witness for C6 at `notes = [60, 62]`, `L = 2`. -/
theorem C6_enumerator_witness :
    ([60, 62] : List Nat).Nodup ∧ 1 ≤ 2 ∧
    ((gen_sequences [60, 62] 2).length = ([60, 62] : List Nat).length ^ 2 ∧
      (gen_sequences [60, 62] 2).Nodup ∧
      List.Pairwise (List.Lex (fun a b => ([60, 62] : List Nat).indexOf a < ([60, 62] : List Nat).indexOf b))
        (gen_sequences [60, 62] 2) ∧
      ∀ m : List Nat, m ∈ gen_sequences [60, 62] 2 ↔ m.length = 2 ∧ ∀ x ∈ m, x ∈ ([60, 62] : List Nat)) :=
  ⟨by decide, by decide, C6_enumerator [60, 62] 2 (by decide) (by decide)⟩

/-! ### Rendering lemmas: unpadded decimal windows (claims C8 and C1) -/

theorem string_eq_of_data {s t : String} (h : s.data = t.data) : s = t := by
  cases s
  cases t
  exact congrArg String.mk h

theorem renderWindow_cons (x : Nat) (w : List Nat) :
    renderWindow (x :: w) = Nat.repr x ++ renderWindow w := by
  cases w with
  | nil => simp [renderWindow, joinSep, String.append_empty]
  | cons y w =>
    have h1 : renderWindow (x :: y :: w) =
        Nat.repr x ++ "" ++ joinSep "" (Nat.repr y :: w.map (fun n => Nat.repr n)) := rfl
    have h2 : renderWindow (y :: w) =
        joinSep "" (Nat.repr y :: w.map (fun n => Nat.repr n)) := rfl
    rw [h1, h2, String.append_empty]

theorem repr_length_two : ∀ x : Nat, x < 100 → 10 ≤ x → (Nat.repr x).length = 2 := by
  decide

set_option maxRecDepth 4000 in
theorem repr_two_digit_inj :
    ∀ x : Nat, x < 100 → ∀ y : Nat, y < 100 → Nat.repr x = Nat.repr y → x = y := by
  decide

theorem renderWindow_length_two_digit :
    ∀ w : List Nat, (∀ x ∈ w, 10 ≤ x ∧ x < 100) → (renderWindow w).length = 2 * w.length := by
  intro w
  induction w with
  | nil =>
    intro _
    rfl
  | cons x w ih =>
    intro h
    rw [renderWindow_cons, String.length_append,
      ih (fun y hy => h y (List.mem_cons_of_mem _ hy)),
      repr_length_two x (h x (List.mem_cons_self _ _)).2 (h x (List.mem_cons_self _ _)).1,
      List.length_cons]
    ring

theorem renderWindow_inj :
    ∀ (w w' : List Nat), w.length = w'.length →
      (∀ x ∈ w, 10 ≤ x ∧ x < 100) → (∀ x ∈ w', 10 ≤ x ∧ x < 100) →
      renderWindow w = renderWindow w' → w = w' := by
  intro w
  induction w with
  | nil =>
    intro w' hl _ _ _
    cases w' with
    | nil => rfl
    | cons y w' => simp at hl
  | cons x w ih =>
    intro w' hl hw hw' heq
    cases w' with
    | nil => simp at hl
    | cons y w' =>
      rw [renderWindow_cons, renderWindow_cons] at heq
      have hdata : (Nat.repr x).data ++ (renderWindow w).data =
          (Nat.repr y).data ++ (renderWindow w').data := by
        have := congrArg String.data heq
        simpa [String.data_append] using this
      have hx := hw x (List.mem_cons_self _ _)
      have hy := hw' y (List.mem_cons_self _ _)
      have hlen2 : (Nat.repr x).data.length = (Nat.repr y).data.length := by
        show (Nat.repr x).length = (Nat.repr y).length
        rw [repr_length_two x hx.2 hx.1, repr_length_two y hy.2 hy.1]
      obtain ⟨h1, h2⟩ := List.append_inj hdata hlen2
      have hxy : x = y := repr_two_digit_inj x hx.2 y hy.2 (string_eq_of_data h1)
      have htail : w = w' := by
        refine ih w' (by simpa using hl) (fun z hz => hw z (List.mem_cons_of_mem _ hz))
          (fun z hz => hw' z (List.mem_cons_of_mem _ hz)) (string_eq_of_data h2)
      rw [hxy, htail]

theorem joinSep_inj (sep : String) (c : Nat) :
    ∀ (l₁ l₂ : List String), l₁.length = l₂.length →
      (∀ s ∈ l₁, s.length = c) → (∀ s ∈ l₂, s.length = c) →
      joinSep sep l₁ = joinSep sep l₂ → l₁ = l₂ := by
  intro l₁
  induction l₁ with
  | nil =>
    intro l₂ hl _ _ _
    cases l₂ with
    | nil => rfl
    | cons t l₂ => simp at hl
  | cons s l₁ ih =>
    intro l₂ hl h1 h2 heq
    cases l₂ with
    | nil => simp at hl
    | cons t l₂ =>
      cases l₁ with
      | nil =>
        cases l₂ with
        | nil =>
          show _ = _
          rw [show joinSep sep [s] = s from rfl, show joinSep sep [t] = t from rfl] at heq
          rw [heq]
        | cons t₂ l₂ => simp at hl
      | cons s₂ l₁ =>
        cases l₂ with
        | nil => simp at hl
        | cons t₂ l₂ =>
          have heq' : s ++ sep ++ joinSep sep (s₂ :: l₁) =
              t ++ sep ++ joinSep sep (t₂ :: l₂) := heq
          have hdata : s.data ++ (sep.data ++ (joinSep sep (s₂ :: l₁)).data) =
              t.data ++ (sep.data ++ (joinSep sep (t₂ :: l₂)).data) := by
            have := congrArg String.data heq'
            simpa [String.data_append, List.append_assoc] using this
          have hlen : s.data.length = t.data.length := by
            show s.length = t.length
            rw [h1 s (List.mem_cons_self _ _), h2 t (List.mem_cons_self _ _)]
          obtain ⟨hst, hrest⟩ := List.append_inj hdata hlen
          have hjoins : joinSep sep (s₂ :: l₁) = joinSep sep (t₂ :: l₂) :=
            string_eq_of_data (List.append_cancel_left hrest)
          have : (s₂ :: l₁) = (t₂ :: l₂) :=
            ih (t₂ :: l₂) (by simpa using hl)
              (fun z hz => h1 z (List.mem_cons_of_mem _ hz))
              (fun z hz => h2 z (List.mem_cons_of_mem _ hz)) hjoins
          rw [string_eq_of_data hst, this]

theorem window_length (g : PartitionPathGenerator) (m : List Nat) (i : Nat)
    (hlen : m.length = g.melody_length) (hi : i < g.partition_depth)
    (hfit : g.partition_depth * g.partition_length ≤ g.melody_length) :
    (g.window m i).length = g.partition_length := by
  unfold PartitionPathGenerator.window
  rw [List.length_take, List.length_drop, hlen]
  have h1 : g.partition_length * i + g.partition_length ≤
      g.partition_length * g.partition_depth := by
    have := Nat.mul_le_mul_left g.partition_length (show i + 1 ≤ g.partition_depth from hi)
    rw [Nat.mul_succ] at this
    exact this
  have h2 : g.partition_length * g.partition_depth ≤ g.melody_length := by
    rw [mul_comm]
    exact hfit
  omega

/-- Claim C8, amended: each window string is the concatenation of the
unpadded decimal MIDI values of its P pitches; whenever every pitch of the
accepted melody has a two-digit decimal value (10..99) — and the partition
scheme fits the melody, as construction guarantees — every window string has
exactly `2 * P` characters. -/
theorem C8_amended (g : PartitionPathGenerator) (m : List Nat) (i : Nat)
    (hlen : m.length = g.melody_length) (_hd : 1 ≤ g.partition_depth)
    (hi : i < g.partition_depth)
    (hfit : g.partition_depth * g.partition_length ≤ g.melody_length)
    (hdig : ∀ x ∈ m, 10 ≤ x ∧ x < 100) :
    (renderWindow (g.window m i)).length = 2 * g.partition_length := by
  rw [renderWindow_length_two_digit (g.window m i) ?_, window_length g m i hlen hi hfit]
  intro x hx
  exact hdig x (List.mem_of_mem_drop (List.mem_of_mem_take hx))

/-- Witness for C8 amended at the constructed generator (2, 2, 1, 1) and the
all-two-digit melody [60, 62]. -/
theorem C8_amended_witness :
    (([60, 62] : List Nat).length = (PartitionPathGenerator.mk 2 1 2).melody_length ∧
      1 ≤ (PartitionPathGenerator.mk 2 1 2).partition_depth ∧
      0 < (PartitionPathGenerator.mk 2 1 2).partition_depth ∧
      (PartitionPathGenerator.mk 2 1 2).partition_depth *
          (PartitionPathGenerator.mk 2 1 2).partition_length ≤
        (PartitionPathGenerator.mk 2 1 2).melody_length) ∧
    (renderWindow ((PartitionPathGenerator.mk 2 1 2).window [60, 62] 0)).length =
      2 * (PartitionPathGenerator.mk 2 1 2).partition_length :=
  ⟨⟨by decide, by decide, by decide, by decide⟩,
    C8_amended ⟨2, 1, 2⟩ [60, 62] 0 (by decide) (by decide) (by decide) (by decide) (by decide)⟩

/-! ### The outer-entry path written by a flush (claim C4, amended) -/

/-- Claim C4, amended: every outer entry written by `BatchTarFile` has path
exactly `partition ++ separator ++ "batch<N>.tar.gz"` — hence
`"<partition>/batch<N>.tar.gz"` when the current partition string is
non-empty and `"/batch<N>.tar.gz"`, with a leading separator, when it is
empty.  `flush_batch` is the only site that writes outer entries; when the
batch archive is open it appends exactly one entry with that path (and the
configured mode, defaulting to the literal 644). -/
theorem C4_amended (b : BatchTarFile) (h : b.batch_archive.state = StorageState.Open) :
    b.flush_batch = .ok { b with
      batch_archive := { b.batch_archive with state := StorageState.Closed }
      outer_entries := b.outer_entries ++
        [⟨b.partition ++ MAIN_SEPARATOR ++ "batch" ++ Nat.repr b.batch_number ++ ".tar.gz",
          b.batch_mode.getD 644⟩] } := by
  have hfin : b.batch_archive.finish = .ok { b.batch_archive with state := StorageState.Closed } := by
    simp [TarArchiveM.finish, h]
  unfold BatchTarFile.flush_batch
  rw [if_pos h, hfin]
  cases hm : b.batch_mode <;> rfl

/-- Witness for C4 amended at a concrete freshly-constructed state. -/
theorem C4_amended_witness :
    (BatchTarFile.mk [] false TarArchiveM.new 6 0 25 none 0 "" ⟨2, 1, 0⟩
        StorageState.Open).batch_archive.state = StorageState.Open ∧
    (BatchTarFile.mk [] false TarArchiveM.new 6 0 25 none 0 "" ⟨2, 1, 0⟩
        StorageState.Open).flush_batch = .ok
      (BatchTarFile.mk [⟨"/batch0.tar.gz", 644⟩] false ⟨StorageState.Closed, []⟩ 6 0 25 none 0 ""
        ⟨2, 1, 0⟩ StorageState.Open) :=
  ⟨rfl, C4_amended (BatchTarFile.mk [] false TarArchiveM.new 6 0 25 none 0 "" ⟨2, 1, 0⟩
    StorageState.Open) rfl⟩

/-! ### Constructors require an existing target file (claim C10) -/

/-- Claim C10: for every target path that does not name an existing file, the
constructors `TarFile::new`, `TarGzFile::new` and `BatchTarFile::new` return
an I/O error before anything is written: each opens the target with
`std::fs::File::open` (read-only; fails with a not-found error on absent
paths and never creates a file).  For `BatchTarFile::new` with an arbitrary
`batch_mode`, the constructor still errors (the mode validation that
precedes the open can only produce the invalid-mode error). -/
theorem C10_constructors_require_existing_file (fs : List String) (p : String)
    (bs k L M D : Nat) (cl : Option Nat) (h : p ∉ fs) :
    TarFile.new fs p = .error (.IOError "No such file or directory") ∧
    TarGzFile.new fs p cl = .error (.IOError "No such file or directory") ∧
    BatchTarFile.new fs p bs k L M D cl none = .error (.IOError "No such file or directory") ∧
    ∀ bm : Option Nat, ∃ e, BatchTarFile.new fs p bs k L M D cl bm = .error e := by
  have hopen : File_open fs p = .error (.IOError "No such file or directory") := by
    simp [File_open, h]
  refine ⟨?_, ?_, ?_, ?_⟩
  · unfold TarFile.new
    rw [hopen]
    rfl
  · unfold TarGzFile.new
    rw [hopen]
    rfl
  · unfold BatchTarFile.new
    rw [hopen]
    rfl
  · intro bm
    cases bm with
    | none =>
      refine ⟨.IOError "No such file or directory", ?_⟩
      unfold BatchTarFile.new
      rw [hopen]
      rfl
    | some m =>
      by_cases hm : m > 777
      · refine ⟨.IOError ("Invalid file mode " ++ Nat.repr m), ?_⟩
        unfold BatchTarFile.new
        dsimp only
        rw [if_pos hm]
        rfl
      · refine ⟨.IOError "No such file or directory", ?_⟩
        unfold BatchTarFile.new
        dsimp only
        rw [if_neg hm, hopen]
        rfl

/-- Witness for C10 at the empty filesystem and path "out.tar". -/
theorem C10_constructors_witness :
    ("out.tar" ∉ ([] : List String)) ∧
    (TarFile.new [] "out.tar" = .error (.IOError "No such file or directory") ∧
      TarGzFile.new [] "out.tar" none = .error (.IOError "No such file or directory") ∧
      BatchTarFile.new [] "out.tar" 25 2 2 4096 1 none none =
        .error (.IOError "No such file or directory") ∧
      ∀ bm : Option Nat, ∃ e,
        BatchTarFile.new [] "out.tar" 25 2 2 4096 1 none bm = .error e) :=
  ⟨by decide, C10_constructors_require_existing_file [] "out.tar" 25 2 2 4096 1 none (by decide)⟩

/-! ### Partition-bound machinery (claim C1, amended) -/

theorem leastPartitionLength_found (base mx n : Nat) :
    ∀ (fuel start : Nat), (∃ j, j < fuel ∧ n ≤ mx * base ^ (start + j)) →
      n ≤ mx * base ^ (leastPartitionLength base mx n fuel start) := by
  intro fuel
  induction fuel with
  | zero =>
    intro start h
    obtain ⟨j, hj, -⟩ := h
    omega
  | succ fuel ih =>
    intro start h
    rw [leastPartitionLength]
    by_cases hs : n ≤ mx * base ^ start
    · rw [if_pos hs]
      exact hs
    · rw [if_neg hs]
      apply ih
      obtain ⟨j, hj, hnj⟩ := h
      cases j with
      | zero => exact absurd (by simpa using hnj) hs
      | succ j =>
        refine ⟨j, by omega, ?_⟩
        rw [show start + 1 + j = start + (j + 1) from by omega]
        exact hnj

theorem length_filter_flatMap {α β : Type} (f : α → List β) (pr : β → Bool) :
    ∀ l : List α, ((l.flatMap f).filter pr).length =
      (l.map (fun a => ((f a).filter pr).length)).sum := by
  intro l
  induction l with
  | nil => rfl
  | cons a l ih => simp [List.flatMap_cons, List.filter_append, ih]

theorem sum_map_eq_single_of_nodup {φ : Nat → Nat} {a : Nat} {l : List Nat}
    (hnd : l.Nodup) (ha : a ∈ l) (h0 : ∀ b ∈ l, b ≠ a → φ b = 0) :
    (l.map φ).sum = φ a := by
  rw [List.sum_map_eq_nsmul_single a φ (fun b hb hbl => h0 b hbl hb),
    List.count_eq_one_of_mem hnd ha, one_smul]

theorem filter_take_length (notes : List Nat) (hnd : notes.Nodup) :
    ∀ (n t : Nat) (m : List Nat), t ≤ n → m ∈ seq_product notes n →
      ((seq_product notes n).filter (fun m' => decide (m'.take t = m.take t))).length =
        notes.length ^ (n - t) := by
  intro n
  induction n with
  | zero =>
    intro t m ht _
    have ht0 : t = 0 := by omega
    subst ht0
    simp [seq_product, List.filter]
  | succ n ih =>
    intro t m ht hm
    cases t with
    | zero =>
      have hpred : ∀ m' ∈ seq_product notes (n + 1),
          (fun m' => decide (m'.take 0 = m.take 0)) m' = true := by
        intro m' _
        simp
      rw [List.filter_eq_self.2 hpred, seq_product_length]
      rfl
    | succ s =>
      have hm' := hm
      rw [seq_product, List.mem_flatMap] at hm'
      obtain ⟨a, ha, hmm⟩ := hm'
      rw [List.mem_map] at hmm
      obtain ⟨m₀, hm₀, rfl⟩ := hmm
      rw [seq_product, length_filter_flatMap]
      have hblock : ∀ x ∈ notes,
          (fun x => (((seq_product notes n).map (fun s => x :: s)).filter
            (fun m' => decide (m'.take (s + 1) = (a :: m₀).take (s + 1)))).length) x =
          (fun x => if x = a then notes.length ^ (n - s) else 0) x := by
        intro x hx
        simp only
        rw [List.filter_map]
        by_cases hxa : x = a
        · subst hxa
          have hcomp : ((fun m' => decide (m'.take (s + 1) = (x :: m₀).take (s + 1))) ∘
              (fun u => x :: u)) = fun u => decide (u.take s = m₀.take s) := by
            funext u
            simp [List.take_succ_cons]
          rw [hcomp, List.length_map, ih s m₀ (by omega) hm₀, if_pos rfl]
        · have hnil : List.filter ((fun m' => decide (m'.take (s + 1) = (a :: m₀).take (s + 1))) ∘
              (fun u => x :: u)) (seq_product notes n) = [] := by
            rw [List.filter_eq_nil_iff]
            intro u _
            simp [List.take_succ_cons, hxa]
          rw [hnil, if_neg hxa]
          rfl
      rw [List.map_congr_left hblock,
        sum_map_eq_single_of_nodup hnd ha (fun b _ hb => by rw [if_neg hb]),
        if_pos rfl]
      congr 1
      omega

theorem gen_basename_eq (g : PartitionPathGenerator) (m : List Nat)
    (hlen : m.length = g.melody_length) (hd : g.partition_depth ≠ 0) :
    g.gen_basename_for_file ⟨m⟩ =
      .ok (joinSep MAIN_SEPARATOR
        ((List.range g.partition_depth).map (fun i => renderWindow (g.window m i)))) := by
  unfold PartitionPathGenerator.gen_basename_for_file
  rw [if_neg (by simp [hlen])]
  cases hdep : g.partition_depth with
  | zero => exact absurd hdep hd
  | succ n =>
    simp [List.map_map, Function.comp_def]

theorem window_take (g : PartitionPathGenerator) (m : List Nat) (i : Nat)
    (hi : i < g.partition_depth) :
    g.window (m.take (g.partition_length * g.partition_depth)) i = g.window m i := by
  have h1 : g.partition_length * i + g.partition_length ≤
      g.partition_length * g.partition_depth := by
    have := Nat.mul_le_mul_left g.partition_length (show i + 1 ≤ g.partition_depth from hi)
    rwa [Nat.mul_succ] at this
  unfold PartitionPathGenerator.window
  rw [List.drop_take, List.take_take]
  congr 1
  exact Nat.min_eq_left (Nat.le_sub_of_add_le (by rw [Nat.add_comm]; exact h1))

theorem take_mul_eq_of_windows (p : Nat) (m m' : List Nat) :
    ∀ d, (∀ i, i < d → (m.drop (p * i)).take p = (m'.drop (p * i)).take p) →
      m.take (p * d) = m'.take (p * d) := by
  intro d
  induction d with
  | zero => intro _; simp
  | succ d ih =>
    intro h
    rw [Nat.mul_succ, List.take_add, List.take_add,
      ih (fun i hi => h i (Nat.lt_succ_of_lt hi)), h d (Nat.lt_succ_self d)]

theorem map_range_pointwise {α : Type} {f f' : Nat → α} {d : Nat}
    (h : (List.range d).map f = (List.range d).map f') : ∀ i, i < d → f i = f' i := by
  intro i hi
  have h1 := congrArg (fun l => l[i]?) h
  simp only [List.getElem?_map, List.getElem?_range hi, Option.map_some] at h1
  exact Option.some.inj h1

theorem basename_eq_iff (g : PartitionPathGenerator) (m m' : List Nat)
    (hm : m.length = g.melody_length) (hm' : m'.length = g.melody_length)
    (hd : g.partition_depth ≠ 0)
    (hfit : g.partition_depth * g.partition_length ≤ g.melody_length)
    (hdig : ∀ x ∈ m, 10 ≤ x ∧ x < 100) (hdig' : ∀ x ∈ m', 10 ≤ x ∧ x < 100) :
    g.gen_basename_for_file ⟨m⟩ = g.gen_basename_for_file ⟨m'⟩ ↔
      m.take (g.partition_length * g.partition_depth) =
        m'.take (g.partition_length * g.partition_depth) := by
  rw [gen_basename_eq g m hm hd, gen_basename_eq g m' hm' hd]
  have hwinlen : ∀ (mm : List Nat), mm.length = g.melody_length →
      (∀ x ∈ mm, 10 ≤ x ∧ x < 100) →
      ∀ s ∈ (List.range g.partition_depth).map (fun i => renderWindow (g.window mm i)),
        s.length = 2 * g.partition_length := by
    intro mm hmm hdd s hs
    rw [List.mem_map] at hs
    obtain ⟨i, hi, rfl⟩ := hs
    rw [List.mem_range] at hi
    rw [renderWindow_length_two_digit (g.window mm i)
      (fun x hx => hdd x (List.mem_of_mem_drop (List.mem_of_mem_take hx))),
      window_length g mm i hmm hi hfit]
  constructor
  · intro h
    have hjoin : joinSep MAIN_SEPARATOR
        ((List.range g.partition_depth).map (fun i => renderWindow (g.window m i))) =
        joinSep MAIN_SEPARATOR
        ((List.range g.partition_depth).map (fun i => renderWindow (g.window m' i))) := by
      simpa using h
    have hW := joinSep_inj MAIN_SEPARATOR (2 * g.partition_length) _ _ (by simp)
      (hwinlen m hm hdig) (hwinlen m' hm' hdig') hjoin
    have hptw := map_range_pointwise hW
    apply take_mul_eq_of_windows
    intro i hi
    have hri : renderWindow (g.window m i) = renderWindow (g.window m' i) := hptw i hi
    have hwin : g.window m i = g.window m' i := by
      refine renderWindow_inj _ _ ?_ ?_ ?_ hri
      · rw [window_length g m i hm hi hfit, window_length g m' i hm' hi hfit]
      · exact fun x hx => hdig x (List.mem_of_mem_drop (List.mem_of_mem_take hx))
      · exact fun x hx => hdig' x (List.mem_of_mem_drop (List.mem_of_mem_take hx))
    exact hwin
  · intro h
    have hmaps : ∀ i ∈ List.range g.partition_depth,
        (fun i => renderWindow (g.window m i)) i =
        (fun i => renderWindow (g.window m' i)) i := by
      intro i hi
      rw [List.mem_range] at hi
      simp only
      rw [← window_take g m i hi, ← window_take g m' i hi, h]
    rw [List.map_congr_left hmaps]

/-- Claim C1, amended: for every `PartitionPathGenerator` constructed
successfully from valid parameters (melody length L ≥ 1, max_files M ≥ 1,
partition depth D ≥ 1), and every melody `m` of length L over a set of
`num_notes` pairwise-distinct notes all of whose MIDI values have two
decimal digits (10..99), the number of length-L melodies over that set whose
partition basename equals the basename of `m` is at most M.  (The two-digit
restriction is forced by `C1_counterexample`: unpadded decimal rendering
merges basenames of notes with different digit counts.) -/
theorem C1_amended (num_notes melody_length max_files partition_depth : Nat)
    (notes m : List Nat) (g : PartitionPathGenerator)
    (hk : notes.length = num_notes) (hnd : notes.Nodup)
    (hdig : ∀ x ∈ notes, 10 ≤ x ∧ x < 100)
    (hM : 1 ≤ max_files) (hd1 : 1 ≤ partition_depth) (hL : 1 ≤ melody_length)
    (hnew : PartitionPathGenerator.new num_notes melody_length max_files partition_depth =
      .ok g)
    (hm : m ∈ seq_product notes melody_length) :
    countSharingBasename notes g m ≤ max_files := by
  have hmlen : m.length = melody_length := ((mem_seq_product notes _ m).1 hm).1
  have hmdig : ∀ x ∈ m, 10 ≤ x ∧ x < 100 :=
    fun x hx => hdig x (((mem_seq_product notes _ m).1 hm).2 x hx)
  unfold PartitionPathGenerator.new at hnew
  by_cases hdep : partition_depth > melody_length
  · rw [if_pos hdep] at hnew
    exact absurd hnew (by simp)
  rw [if_neg hdep] at hnew
  dsimp only at hnew
  by_cases htriv : num_notes = 1 ∨ num_notes ^ melody_length ≤ max_files
  · rw [if_pos htriv] at hnew
    rw [Except.ok.injEq] at hnew
    subst hnew
    unfold countSharingBasename
    dsimp only
    have hflat : ∀ m'' ∈ seq_product notes melody_length,
        (⟨melody_length, 1, 0⟩ : PartitionPathGenerator).gen_basename_for_file ⟨m''⟩ =
          .ok "" := by
      intro m'' hmem
      have hlen'' : m''.length = melody_length := ((mem_seq_product notes _ m'').1 hmem).1
      rw [gen_basename_eq ⟨melody_length, 1, 0⟩ m'' hlen'' (by simp)]
      rfl
    have hpredf : ∀ m'' ∈ seq_product notes melody_length,
        (fun m' => decide
          ((⟨melody_length, 1, 0⟩ : PartitionPathGenerator).gen_basename_for_file ⟨m'⟩ =
            (⟨melody_length, 1, 0⟩ : PartitionPathGenerator).gen_basename_for_file ⟨m⟩)) m'' =
          true := by
      intro m'' hmem
      have hmem' : m ∈ seq_product notes melody_length := hm
      simp only [hflat m'' hmem, hflat m hmem']
      simp
    rw [List.filter_eq_self.2 hpredf, seq_product_length, hk]
    rcases htriv with h1 | h2
    · rw [h1, one_pow]
      exact hM
    · exact h2
  · rw [if_neg htriv] at hnew
    unfold PartitionPathGenerator.gen_partition_length at hnew
    dsimp only at hnew
    set P := leastPartitionLength (num_notes ^ partition_depth) max_files
      (num_notes ^ melody_length) (num_notes ^ melody_length + 1) 0 with hPdef
    by_cases hchk : melody_length < partition_depth * P
    · rw [if_pos hchk] at hnew
      exact absurd hnew (by simp)
    rw [if_neg hchk] at hnew
    dsimp only at hnew
    rw [Except.ok.injEq] at hnew
    subst hnew
    have hknot1 : num_notes ≠ 1 := fun h => htriv (Or.inl h)
    have hklarge : max_files < num_notes ^ melody_length := by
      by_contra hc
      exact htriv (Or.inr (le_of_not_lt hc))
    have hk2 : 2 ≤ num_notes := by
      rcases Nat.lt_or_ge num_notes 2 with h | h
      · have : num_notes = 0 ∨ num_notes = 1 := by omega
        rcases this with h0 | h1
        · rw [h0, Nat.zero_pow (by omega)] at hklarge
          omega
        · exact absurd h1 hknot1
      · exact h
    have hbase : 2 ≤ num_notes ^ partition_depth := by
      calc (2 : Nat) = 2 ^ 1 := rfl
        _ ≤ num_notes ^ 1 := Nat.pow_le_pow_left hk2 1
        _ ≤ num_notes ^ partition_depth := Nat.pow_le_pow_right (by omega) hd1
    have hfound : num_notes ^ melody_length ≤
        max_files * (num_notes ^ partition_depth) ^ P := by
      rw [hPdef]
      apply leastPartitionLength_found
      refine ⟨num_notes ^ melody_length, Nat.lt_succ_self _, ?_⟩
      rw [Nat.zero_add]
      calc num_notes ^ melody_length
          ≤ 2 ^ (num_notes ^ melody_length) := le_of_lt (Nat.lt_two_pow _)
        _ ≤ (num_notes ^ partition_depth) ^ (num_notes ^ melody_length) :=
            Nat.pow_le_pow_left hbase _
        _ ≤ max_files * (num_notes ^ partition_depth) ^ (num_notes ^ melody_length) :=
            Nat.le_mul_of_pos_left _ hM
    have hfit : partition_depth * P ≤ melody_length := le_of_not_lt hchk
    unfold countSharingBasename
    dsimp only
    have hcongr : ∀ m'' ∈ seq_product notes melody_length,
        (fun m' => decide
          ((⟨melody_length, partition_depth, P⟩ : PartitionPathGenerator).gen_basename_for_file ⟨m'⟩ =
            (⟨melody_length, partition_depth, P⟩ : PartitionPathGenerator).gen_basename_for_file ⟨m⟩)) m'' =
        (fun m' => decide
          (m'.take (P * partition_depth) = m.take (P * partition_depth))) m'' := by
      intro m'' hmem
      have hlen'' : m''.length = melody_length := ((mem_seq_product notes _ m'').1 hmem).1
      have hdig'' : ∀ x ∈ m'', 10 ≤ x ∧ x < 100 :=
        fun x hx => hdig x (((mem_seq_product notes _ m'').1 hmem).2 x hx)
      simp only
      rw [decide_eq_decide]
      exact basename_eq_iff ⟨melody_length, partition_depth, P⟩ m'' m hlen'' hmlen
        (show partition_depth ≠ 0 by omega) hfit hdig'' hmdig
    rw [List.filter_congr hcongr,
      filter_take_length notes hnd melody_length (P * partition_depth) m
        (by rw [Nat.mul_comm]; exact hfit) hm, hk]
    have hsplit : num_notes ^ melody_length =
        num_notes ^ (P * partition_depth) *
          num_notes ^ (melody_length - P * partition_depth) := by
      rw [← pow_add]
      congr 1
      have := hfit
      rw [Nat.mul_comm] at this
      omega
    have hpowmul : (num_notes ^ partition_depth) ^ P = num_notes ^ (P * partition_depth) := by
      rw [Nat.mul_comm, pow_mul]
    have hfound' : num_notes ^ (P * partition_depth) *
        num_notes ^ (melody_length - P * partition_depth) ≤
        num_notes ^ (P * partition_depth) * max_files := by
      rw [← hsplit]
      calc num_notes ^ melody_length
          ≤ max_files * (num_notes ^ partition_depth) ^ P := hfound
        _ = num_notes ^ (P * partition_depth) * max_files := by
            rw [hpowmul, Nat.mul_comm]
    exact Nat.le_of_mul_le_mul_left hfound' (pow_pos (by omega) _)

/-- Witness for C1 amended at the constructed generator (2, 2, 1, 1), the
two-digit note set [10, 11] and the melody [10, 11]. -/
theorem C1_amended_witness :
    PartitionPathGenerator.new 2 2 1 1 = .ok ⟨2, 1, 2⟩ ∧
    [10, 11] ∈ seq_product [10, 11] 2 ∧
    countSharingBasename [10, 11] ⟨2, 1, 2⟩ [10, 11] ≤ 1 :=
  ⟨by decide, by decide,
    C1_amended 2 2 1 1 [10, 11] [10, 11] ⟨2, 1, 2⟩ (by decide) (by decide) (by decide)
      (by decide) (by decide) (by decide) (by decide) (by decide)⟩
